import Mathlib

/-!
Verification of the audio streaming core of the Mortgage64 repository
(libdragon audio subsystem): sample buffer, WAV64 container, VADPCM codec
(with the Huffman overlay and its build-time encoder), the binout
placeholder scheme and the XM64 player tick.

Each C function that a claim depends on is shallowly embedded as an
executable Lean definition, translated from the source files under
src/audio and tools/. C machine integers are modelled as Int; on the
values flowing through the modelled code paths no overflow occurs, so
plain integer arithmetic is exact. C bitwise operations on two's
complement ints are modelled as follows: x & (2^k - 1) is x % 2^k
(Int.emod agrees with the two's complement mask for every sign),
x << n on a value kept in range is x * 2^n, and the arithmetic right
shift x >> n is x / 2^n (Int division in Lean floors for a positive
divisor, exactly like an arithmetic shift). C assertions are modelled
by returning none from an Option-valued function.
-/

/-- C left shift (value << n) for values kept in range: exact
multiplication by a power of two. -/
def shl (x : Int) (n : Nat) : Int := x * 2 ^ n

/-- ROUND_UP(n, 8) from utils.h (header not present in the sources;
modelled from its single use in samplebuffer.c, where the copied byte
count is rounded up to the next multiple of 8): for non-negative n this
is (n + 7) / 8 * 8. -/
def roundUp8 (n : Int) : Int := (n + 7) / 8 * 8

/-!
## Sample buffer (src/audio/samplebuffer.c)

The C struct samplebuffer_s packs the base pointer of the backing region
and the bits-per-sample shift into one word (ptr_and_flags); the pointer
is 8-byte aligned so the low bits are free for the shift. The struct
declaration lives in samplebuffer.h which is not among the sources, so
the packing macros SAMPLES_PTR / SAMPLES_BPS_SHIFT are modelled by
keeping the two components separate: the base address is taken as 0
(every pointer returned by the C code is base + byte offset, and we
return the byte offset), and the shift is the field bps. The backing
memory is a byte-addressed map. wpos, widx, ridx, wnext are C ints.
-/

structure SampleBuffer where
  mem : Int → Int
  size : Int
  bps : Nat
  wpos : Int
  widx : Int
  ridx : Int
  wnext : Int

/-- samplebuffer_init: memset the struct to zero (so all indices and the
bps flags start at 0), record the region size in bytes, and set
wnext = -1. The reserved codec state region does not affect any modelled
field and is omitted. -/
def samplebuffer_init (mem : Int → Int) (nbytes : Int) : SampleBuffer :=
  { mem := mem
    size := nbytes
    bps := 0
    wpos := 0
    widx := 0
    ridx := 0
    wnext := -1 }

/-- samplebuffer_set_bps: only legal on an empty buffer; rescales size
from the old shift to the new one. Assertion failures yield none. -/
def samplebuffer_set_bps (buf : SampleBuffer) (bits_per_sample : Int) :
    Option SampleBuffer :=
  if ¬(bits_per_sample = 8 ∨ bits_per_sample = 16 ∨ bits_per_sample = 32) then
    none
  else if ¬(buf.widx = 0 ∧ buf.ridx = 0 ∧ buf.wpos = 0) then none
  else
    let nbytes := shl buf.size buf.bps
    let bps : Nat := if bits_per_sample = 8 then 0
                     else if bits_per_sample = 16 then 1 else 2
    some { buf with bps := bps, size := nbytes / 2 ^ bps }

/-- samplebuffer_flush: reset all indices, wnext = -1. -/
def samplebuffer_flush (buf : SampleBuffer) : SampleBuffer :=
  { buf with wpos := 0, widx := 0, ridx := 0, wnext := -1 }

/-- samplebuffer_undo: retract the last wlen appended frames. The C code
only asserts widx >= wlen before decrementing widx. -/
def samplebuffer_undo (buf : SampleBuffer) (wlen : Int) : Option SampleBuffer :=
  if buf.widx < wlen then none
  else some { buf with widx := buf.widx - wlen }

/-- One iteration of the 64-bit copy loop in samplebuffer_discard:
block i is loaded with a single 64-bit read (all 8 source bytes are read
from the state the memory had before this block's own store) and then
stored at destination offset 8*i. -/
def copyBlock (src : Int) (i : Nat) (m : Int → Int) : Int → Int :=
  fun b => if 8 * (i : Int) ≤ b ∧ b < 8 * (i : Int) + 8 then m (src + b) else m b

/-- The full copy loop of samplebuffer_discard: n 64-bit blocks copied
forward, from byte offset src to byte offset 0. -/
def copyBlocks (src : Int) (m : Int → Int) (n : Nat) : Int → Int :=
  (List.range n).foldl (fun mm i => copyBlock src i mm) m

/-- Tail of samplebuffer_discard once the kept index idx is fixed:
compact the kept bytes to offset 0 (rounding the copied amount up to a
multiple of 8, using 64-bit uncached stores) and slide the indices. -/
def samplebuffer_discard_go (buf : SampleBuffer) (idx : Int) : SampleBuffer :=
  let keptBytes := shl (buf.widx - idx) buf.bps
  let mem :=
    if keptBytes > 0 then
      copyBlocks (shl idx buf.bps) buf.mem ((roundUp8 keptBytes) / 8).toNat
    else buf.mem
  { buf with
    mem := mem
    wpos := buf.wpos + idx
    widx := buf.widx - idx
    ridx := if buf.ridx - idx < 0 then 0 else buf.ridx - idx }

/-- samplebuffer_discard: keep only frames with logical index >= wpos.
No-op when idx <= 0; clamps idx to widx; steps idx back by one when the
byte offset idx << bps is odd (and returns if that makes it 0). -/
def samplebuffer_discard (buf : SampleBuffer) (wpos : Int) : SampleBuffer :=
  let idx := wpos - buf.wpos
  if idx ≤ 0 then buf
  else
    let idx := if idx > buf.widx then buf.widx else idx
    if (shl idx buf.bps) % 2 = 1 then
      let idx := idx - 1
      if idx = 0 then buf else samplebuffer_discard_go buf idx
    else samplebuffer_discard_go buf idx

/-- The rollback loop of samplebuffer_append: decrement ridx while
ridx << bps is not 8-byte aligned. Every 8th byte offset is aligned, so
the C loop runs at most 7 times; a fuel of 8 therefore reproduces it
exactly (samplebuffer_append calls it with fuel 8). -/
def rollbackLoop (bps : Nat) (ridx : Int) : Nat → Int
  | 0 => ridx
  | fuel + 1 =>
    if (shl ridx bps) % 8 ≠ 0 then rollbackLoop bps (ridx - 1) fuel else ridx

/-- samplebuffer_append: if the request does not fit, compact via
samplebuffer_discard at the 8-byte-aligned rollback of ridx (asserting
widx >= ridx first); then assert that wpos << bps is even and that the
request now fits, advance widx, and return the (byte offset of the) new
write position. -/
def samplebuffer_append (buf : SampleBuffer) (wlen : Int) :
    Option (SampleBuffer × Int) :=
  if buf.widx + wlen > buf.size ∧ buf.widx < buf.ridx then none
  else
    let buf1 :=
      if buf.widx + wlen > buf.size then
        samplebuffer_discard buf (buf.wpos + rollbackLoop buf.bps buf.ridx 8)
      else buf
    if (shl buf1.wpos buf1.bps) % 2 ≠ 0 then none
    else if buf1.widx + wlen > buf1.size then none
    else some ({ buf1 with widx := buf1.widx + wlen }, shl buf1.widx buf1.bps)

/-- Type of the waveform read callback stored in the sample buffer
(WaveformRead): it receives the buffer, the position, the length and the
seeking flag, and returns the updated buffer (none on an assertion
failure inside the callback). -/
def ReadFn : Type := SampleBuffer → Int → Int → Bool → Option SampleBuffer

/-- ROUNDUP8_BPS from samplebuffer_get: round a sample count up so that
it spans a whole number of 8-byte words, given the bps shift. -/
def roundup8bps (nsamples : Int) (bps : Nat) : Int :=
  (nsamples + (8 / 2 ^ bps - 1)) / 2 ^ (3 - bps) * 2 ^ (3 - bps)

/-- First half of samplebuffer_get (samplebuffer.c lines 96-139): either
flush-and-decode-from-scratch (with the odd-byte-phase adjustment of
wpos, and seeking detected by comparing with wnext), or record ridx,
compute the reusable sample count, and read only the missing part.
Returns the buffer reached just before the final consistency assertion
(none models a failed assertion in this part). -/
def samplebuffer_get_fill (rd : ReadFn) (buf : SampleBuffer) (wpos : Int)
    (wlen : Int) : Option SampleBuffer :=
  let bps := buf.bps
  if buf.widx = 0 ∨ wpos < buf.wpos ∨ wpos > buf.wpos + buf.widx then
    let seeking := wpos ≠ buf.wnext
    let buf1 := samplebuffer_flush buf
    let buf1 := { buf1 with wpos := wpos }
    let adj := (shl buf1.wpos bps) % 2 = 1
    let buf1 := if adj then { buf1 with wpos := buf1.wpos - 1 } else buf1
    let len := if adj then wlen + 1 else wlen
    match rd buf1 buf1.wpos (roundup8bps len bps) seeking with
    | none => none
    | some buf2 => some { buf2 with wnext := buf2.wpos + buf2.widx }
  else
    let buf1 := { buf with ridx := wpos - buf.wpos }
    let reuse := buf1.wpos + buf1.widx - wpos
    if reuse < wlen then
      if wpos + reuse ≠ buf1.wnext then none
      else
        match rd buf1 (wpos + reuse) (roundup8bps (wlen - reuse) bps) false with
        | none => none
        | some buf2 => some { buf2 with wnext := buf2.wpos + buf2.widx }
    else some buf1

/-- samplebuffer_get: the consumer entry point. Returns the updated
buffer, the byte offset (from the buffer base) of the returned pointer,
and the possibly reduced sample count (the value stored back in *wlen).
none models a failed assertion. -/
def samplebuffer_get (rd : ReadFn) (buf : SampleBuffer) (wpos : Int)
    (wlen : Int) : Option (SampleBuffer × Int × Int) :=
  match samplebuffer_get_fill rd buf wpos wlen with
  | none => none
  | some buf2 =>
    if wpos ≥ buf2.wpos ∧ wpos < buf2.wpos + buf2.widx then
      let idx := wpos - buf2.wpos
      let len := buf2.widx - idx
      let outLen := if len < wlen then len else wlen
      some (buf2, shl idx buf2.bps, outLen)
    else none

/-- The documented sample buffer invariant: 0 <= ridx <= widx <= size. -/
def sbInvariant (buf : SampleBuffer) : Prop :=
  0 ≤ buf.ridx ∧ buf.ridx ≤ buf.widx ∧ buf.widx ≤ buf.size

instance (buf : SampleBuffer) : Decidable (sbInvariant buf) := by
  unfold sbInvariant; infer_instance

/-- The public sample buffer operations, as listed by the claim. Sample
counts passed by the callers are non-negative, hence Nat parameters. -/
inductive SbOp where
  | opInit (mem : Int → Int) (nbytes : Nat)
  | opSetBps (bits : Int)
  | opGet (rd : ReadFn) (wpos : Int) (wlen : Int)
  | opAppend (wlen : Nat)
  | opUndo (wlen : Nat)
  | opDiscard (wpos : Int)
  | opFlush

/-- Apply one sample buffer operation (none = assertion failure). -/
def applyOp : SbOp → SampleBuffer → Option SampleBuffer
  | .opInit m n, _ => some (samplebuffer_init m (n : Int))
  | .opSetBps b, buf => samplebuffer_set_bps buf b
  | .opGet rd p l, buf => (samplebuffer_get rd buf p l).map (·.1)
  | .opAppend l, buf => (samplebuffer_append buf (l : Int)).map (·.1)
  | .opUndo l, buf => samplebuffer_undo buf (l : Int)
  | .opDiscard p, buf => some (samplebuffer_discard buf p)
  | .opFlush, buf => some (samplebuffer_flush buf)

/-- All-zero backing memory used by concrete test scenarios. -/
def memZero : Int → Int := fun _ => 0

/-- A read callback that leaves the buffer untouched (the codec produced
no samples; a short read is legal per the waveform contract). -/
def rdId : ReadFn := fun b _ _ _ => some b

/-- Concrete operation sequence refuting claim C1 as stated: a buffer of
8 bytes at 16 bit (4 frames), append 3 frames, consume up to frame 2
(get sets ridx = 2 and needs no read callback since the sample is
resident), then undo 2 frames: undo only checks wlen <= widx, so widx
drops to 1 while ridx stays 2. -/
def c1seq : Option SampleBuffer :=
  ((((applyOp (.opInit memZero 8) (samplebuffer_init memZero 0)).bind
      (applyOp (.opSetBps 16))).bind
      (applyOp (.opAppend 3))).bind
      (applyOp (.opGet rdId 2 1))).bind
      (applyOp (.opUndo 2))

/-! ## Claim C1: the sample buffer index invariant -/

theorem shl_nonneg {x : Int} (n : Nat) (h : 0 ≤ x) : 0 ≤ shl x n :=
  mul_nonneg h (by positivity)

theorem samplebuffer_discard_go_inv (buf : SampleBuffer) (idx : Int)
    (h : sbInvariant buf) (h0 : 0 ≤ idx) (h1 : idx ≤ buf.widx) :
    sbInvariant (samplebuffer_discard_go buf idx) := by
  obtain ⟨a, b, c⟩ := h
  unfold samplebuffer_discard_go sbInvariant
  simp only
  refine ⟨?_, ?_, ?_⟩
  · split <;> omega
  · split <;> omega
  · omega

theorem samplebuffer_discard_inv (buf : SampleBuffer) (p : Int)
    (h : sbInvariant buf) : sbInvariant (samplebuffer_discard buf p) := by
  have hw : (0 : Int) ≤ buf.widx := le_trans h.1 h.2.1
  unfold samplebuffer_discard
  simp only
  split
  · exact h
  · rename_i hpos
    set idx := if p - buf.wpos > buf.widx then buf.widx else p - buf.wpos
      with hidx
    have hidx1 : 0 ≤ idx ∧ idx ≤ buf.widx := by rw [hidx]; split <;> omega
    split
    · rename_i hodd
      have hnz : idx ≠ 0 := by
        intro h0
        rw [h0] at hodd
        simp [shl] at hodd
      split
      · exact h
      · rename_i hne
        exact samplebuffer_discard_go_inv _ _ h (by omega) (by omega)
    · exact samplebuffer_discard_go_inv _ _ h (by omega) (by omega)

theorem samplebuffer_flush_inv (buf : SampleBuffer) (h : sbInvariant buf) :
    sbInvariant (samplebuffer_flush buf) :=
  ⟨le_refl 0, le_refl 0, le_trans h.1 (le_trans h.2.1 h.2.2)⟩

theorem samplebuffer_set_bps_inv (buf buf2 : SampleBuffer) (bits : Int)
    (h : sbInvariant buf) (happ : samplebuffer_set_bps buf bits = some buf2) :
    sbInvariant buf2 := by
  have hs : (0 : Int) ≤ buf.size := le_trans h.1 (le_trans h.2.1 h.2.2)
  unfold samplebuffer_set_bps at happ
  split at happ
  · exact absurd happ (by simp)
  · split at happ
    · exact absurd happ (by simp)
    · rename_i hemp
      rw [not_not] at hemp
      cases happ
      refine ⟨?_, ?_, ?_⟩ <;> simp only
      · rw [hemp.2.1]
      · rw [hemp.2.1, hemp.1]
      · rw [hemp.1]
        exact Int.ediv_nonneg (shl_nonneg _ hs) (by positivity)

theorem samplebuffer_undo_inv (buf buf2 : SampleBuffer) (wlen : Int)
    (h : sbInvariant buf) (hl0 : 0 ≤ wlen) (hl : wlen ≤ buf.widx - buf.ridx)
    (happ : samplebuffer_undo buf wlen = some buf2) : sbInvariant buf2 := by
  obtain ⟨a, b, c⟩ := h
  unfold samplebuffer_undo at happ
  split at happ
  · exact absurd happ (by simp)
  · cases happ
    exact ⟨a, by simp only; omega, by simp only; omega⟩

theorem samplebuffer_append_inv (buf : SampleBuffer) (out : SampleBuffer × Int)
    (wlen : Int) (h : sbInvariant buf) (hl : 0 ≤ wlen)
    (happ : samplebuffer_append buf wlen = some out) : sbInvariant out.1 := by
  have key : ∀ b1 : SampleBuffer, sbInvariant b1 →
      ((if (shl b1.wpos b1.bps) % 2 ≠ 0 then none
        else if b1.widx + wlen > b1.size then none
        else some ({ b1 with widx := b1.widx + wlen }, shl b1.widx b1.bps) :
        Option (SampleBuffer × Int)) = some out) → sbInvariant out.1 := by
    intro b1 hb1 hm
    split at hm
    · exact absurd hm (by simp)
    · split at hm
      · exact absurd hm (by simp)
      · cases hm
        obtain ⟨a, b, c⟩ := hb1
        rename_i hfit
        exact ⟨a, by simp only; omega, by simp only at hfit ⊢; omega⟩
  unfold samplebuffer_append at happ
  split at happ
  · exact absurd happ (by simp)
  · simp only at happ
    split at happ
    · exact key _ (samplebuffer_discard_inv _ _ h) happ
    · -- the request fits without compaction; splitting on the overflow
      -- condition also discharged the identical middle guard
      rename_i hsz
      split at happ
      · exact absurd happ (by simp)
      · cases happ
        obtain ⟨a, b, c⟩ := h
        exact ⟨a, by simp only; omega, by simp only; omega⟩

theorem samplebuffer_get_fill_inv (rd : ReadFn) (buf : SampleBuffer)
    (p l : Int) (buf2 : SampleBuffer) (hinv : sbInvariant buf)
    (hrd : ∀ b q m s b2, sbInvariant b → rd b q m s = some b2 → sbInvariant b2)
    (h : samplebuffer_get_fill rd buf p l = some buf2) : sbInvariant buf2 := by
  have hsize : (0 : Int) ≤ buf.size := le_trans hinv.1 (le_trans hinv.2.1 hinv.2.2)
  unfold samplebuffer_get_fill at h
  simp only at h
  split at h
  · -- flush-and-reload branch
    split at h
    · exact absurd h (by simp)
    · rename_i b2 hcall
      cases h
      have hb2 := hrd _ _ _ _ _ ?_ hcall
      · exact ⟨hb2.1, hb2.2.1, hb2.2.2⟩
      · split <;> exact ⟨le_refl 0, le_refl 0, hsize⟩
  · rename_i hrange
    rw [not_or, not_or] at hrange
    obtain ⟨hr1, hr2, hr3⟩ := hrange
    have hmid : sbInvariant { buf with ridx := p - buf.wpos } :=
      ⟨by simp only; omega, by simp only; omega, hinv.2.2⟩
    split at h
    · split at h
      · exact absurd h (by simp)
      · split at h
        · exact absurd h (by simp)
        · rename_i b2 hcall
          cases h
          have hb2 := hrd _ _ _ _ _ hmid hcall
          exact ⟨hb2.1, hb2.2.1, hb2.2.2⟩
    · cases h
      exact hmid

theorem samplebuffer_get_inv (rd : ReadFn) (buf : SampleBuffer) (p l : Int)
    (out : SampleBuffer × Int × Int) (hinv : sbInvariant buf)
    (hrd : ∀ b q m s b2, sbInvariant b → rd b q m s = some b2 → sbInvariant b2)
    (h : samplebuffer_get rd buf p l = some out) : sbInvariant out.1 := by
  unfold samplebuffer_get at h
  split at h
  · exact absurd h (by simp)
  · rename_i b2 hfill
    split at h
    · cases h
      exact samplebuffer_get_fill_inv rd buf p l _ hinv hrd hfill
    · exact absurd h (by simp)

/-- C1 (amended): after every successful sample buffer operation the
invariant 0 <= ridx <= widx <= size still holds, PROVIDED an undo
retracts no more than widx - ridx frames (and get is used with a read
callback that itself preserves the invariant, as every codec callback
built from samplebuffer_append / undo / discard does). The proviso is
forced by the counterexample below: samplebuffer_undo only checks
wlen <= widx, so an undo of more than widx - ridx frames succeeds yet
leaves widx below ridx. -/
theorem c1_samplebuffer_invariant (op : SbOp) (buf buf2 : SampleBuffer)
    (hinv : sbInvariant buf)
    (hrd : ∀ rd p l, op = SbOp.opGet rd p l →
      ∀ b q m s b2, sbInvariant b → rd b q m s = some b2 → sbInvariant b2)
    (hundo : ∀ l, op = SbOp.opUndo l → (l : Int) ≤ buf.widx - buf.ridx)
    (happly : applyOp op buf = some buf2) : sbInvariant buf2 := by
  cases op with
  | opInit m n =>
    simp only [applyOp] at happly
    cases happly
    exact ⟨le_refl 0, le_refl 0, Int.natCast_nonneg n⟩
  | opSetBps b =>
    exact samplebuffer_set_bps_inv _ _ _ hinv happly
  | opGet rd p l =>
    simp only [applyOp] at happly
    cases hg : samplebuffer_get rd buf p l with
    | none => rw [hg] at happly; exact absurd happly (by simp)
    | some out =>
      rw [hg] at happly
      have hout : out.1 = buf2 := by simpa using happly
      exact hout ▸ samplebuffer_get_inv rd buf p l out hinv (hrd rd p l rfl) hg
  | opAppend l =>
    simp only [applyOp] at happly
    cases ha : samplebuffer_append buf (l : Int) with
    | none => rw [ha] at happly; exact absurd happly (by simp)
    | some out =>
      rw [ha] at happly
      have hout : out.1 = buf2 := by simpa using happly
      exact hout ▸ samplebuffer_append_inv buf out _ hinv (Int.natCast_nonneg l) ha
  | opUndo l =>
    exact samplebuffer_undo_inv _ _ _ hinv (Int.natCast_nonneg l)
      (hundo l rfl) happly
  | opDiscard p =>
    simp only [applyOp] at happly
    cases happly
    exact samplebuffer_discard_inv _ _ hinv
  | opFlush =>
    simp only [applyOp] at happly
    cases happly
    exact samplebuffer_flush_inv _ hinv

/-- C1, counterexample to the claim as stated: the operation sequence
c1seq (init 8 bytes, set_bps 16, append 3, get at position 2, undo 2)
succeeds — every assertion in the C code passes — yet ends in a state
with ridx = 2 > widx = 1, violating 0 <= ridx <= widx <= size after the
undo. -/
theorem c1_counterexample :
    (c1seq.map fun b => (b.ridx, b.widx, b.size)) = some (2, 1, 4) ∧
    ¬ sbInvariant (c1seq.getD (samplebuffer_init memZero 0)) := by
  refine ⟨rfl, ?_⟩
  intro hctr
  have h2 : (c1seq.getD (samplebuffer_init memZero 0)).ridx = 2 := rfl
  have h1 : (c1seq.getD (samplebuffer_init memZero 0)).widx = 1 := rfl
  have := hctr.2.1
  rw [h1, h2] at this
  exact absurd this (by decide)

/-- C1 witness: the amended preservation theorem applied to a concrete
flush on a freshly initialised buffer. -/
theorem c1_samplebuffer_invariant_witness :
    sbInvariant (samplebuffer_flush (samplebuffer_init memZero 8)) :=
  c1_samplebuffer_invariant SbOp.opFlush (samplebuffer_init memZero 8) _
    ⟨le_refl 0, le_refl 0, by decide⟩
    (fun rd p l hop => SbOp.noConfusion hop)
    (fun l hop => SbOp.noConfusion hop)
    rfl

/-! ## Claim C4: the samplebuffer_get contract -/

theorem shl_pred_even {x : Int} {n : Nat} (h : shl x n % 2 = 1) :
    shl (x - 1) n % 2 = 0 := by
  rcases Nat.eq_zero_or_pos n with hn | hn
  · subst hn
    unfold shl at *
    simp only [pow_zero, mul_one] at *
    omega
  · exfalso
    have h2 : (2 : Int) ∣ x * 2 ^ n :=
      Dvd.dvd.mul_left (dvd_pow_self 2 (by omega)) x
    unfold shl at h
    omega

/-- samplebuffer_get_fill preserves the evenness of the byte address
wpos << bps: in the flush branch the code explicitly steps an odd wpos
back by one, and the read callback is assumed to preserve the property
(every codec callback does, as it changes wpos only through
samplebuffer_discard which preserves the byte parity). -/
theorem samplebuffer_get_fill_parity (rd : ReadFn) (buf : SampleBuffer)
    (p l : Int) (buf2 : SampleBuffer)
    (hpar : (shl buf.wpos buf.bps) % 2 = 0)
    (hrd : ∀ b q m s b2, rd b q m s = some b2 →
      (shl b.wpos b.bps) % 2 = 0 → (shl b2.wpos b2.bps) % 2 = 0)
    (h : samplebuffer_get_fill rd buf p l = some buf2) :
    (shl buf2.wpos buf2.bps) % 2 = 0 := by
  unfold samplebuffer_get_fill at h
  simp only at h
  split at h
  · split at h
    · exact absurd h (by simp)
    · rename_i b2 hcall
      cases h
      show (shl b2.wpos b2.bps) % 2 = 0
      refine hrd _ _ _ _ _ hcall ?_
      split
      · rename_i hadj
        exact shl_pred_even hadj
      · rename_i hadj
        show (shl p buf.bps) % 2 = 0
        omega
  · split at h
    · split at h
      · exact absurd h (by simp)
      · split at h
        · exact absurd h (by simp)
        · rename_i b2 hcall
          cases h
          show (shl b2.wpos b2.bps) % 2 = 0
          exact hrd _ _ _ _ _ hcall hpar
    · cases h
      exact hpar

/-- C4 (confirmed): for every successful samplebuffer_get the returned
pointer is base + (wpos - buffer wpos) << bps bytes, on return the byte
address wpos << bps of the buffer window start is even (given that it
was even on entry and that the read callback preserves it), and the
returned sample count is the resident count widx - idx when that is
smaller than the request, and the request itself otherwise. -/
theorem c4_samplebuffer_get_contract (rd : ReadFn) (buf : SampleBuffer)
    (wpos wlen : Int) (out : SampleBuffer × Int × Int)
    (hpar : (shl buf.wpos buf.bps) % 2 = 0)
    (hrd : ∀ b q m s b2, rd b q m s = some b2 →
      (shl b.wpos b.bps) % 2 = 0 → (shl b2.wpos b2.bps) % 2 = 0)
    (h : samplebuffer_get rd buf wpos wlen = some out) :
    out.2.1 = shl (wpos - out.1.wpos) out.1.bps ∧
    (shl out.1.wpos out.1.bps) % 2 = 0 ∧
    (out.1.widx - (wpos - out.1.wpos) < wlen →
      out.2.2 = out.1.widx - (wpos - out.1.wpos)) ∧
    (¬ out.1.widx - (wpos - out.1.wpos) < wlen → out.2.2 = wlen) := by
  unfold samplebuffer_get at h
  split at h
  · exact absurd h (by simp)
  · rename_i b2 hfill
    split at h
    · cases h
      have hfillpar := samplebuffer_get_fill_parity rd buf wpos wlen b2 hpar hrd hfill
      refine ⟨rfl, hfillpar, ?_, ?_⟩
      · intro hlt
        simp only [if_pos hlt]
      · intro hge
        simp only [if_neg hge]
    · exact absurd h (by simp)

/-- Concrete buffer for the C4 witness: 4 frames at 16 bit, 3 valid
frames starting at logical position 0, wnext = 3. -/
def c4buf : SampleBuffer :=
  { mem := memZero, size := 4, bps := 1, wpos := 0, widx := 3, ridx := 0,
    wnext := 3 }

/-- Expected result of samplebuffer_get rdId c4buf 2 2: pointer at byte
offset 4, one resident sample reported, ridx updated to 2. -/
def c4out : SampleBuffer × Int × Int :=
  ({ mem := memZero, size := 4, bps := 1, wpos := 0, widx := 3, ridx := 2,
     wnext := 3 }, 4, 1)

/-- C4 witness: the contract theorem applied to the concrete request
get(2, 2) on c4buf. -/
theorem c4_samplebuffer_get_contract_witness :
    (shl c4buf.wpos c4buf.bps) % 2 = 0 ∧
    samplebuffer_get rdId c4buf 2 2 = some c4out ∧
    c4out.2.1 = shl (2 - c4out.1.wpos) c4out.1.bps ∧
    (shl c4out.1.wpos c4out.1.bps) % 2 = 0 ∧
    c4out.2.2 = 1 := by
  have h := c4_samplebuffer_get_contract rdId c4buf 2 2 c4out (by decide)
    (fun b q m s b2 hc hp => by cases hc; exact hp) rfl
  exact ⟨by decide, rfl, h.1, h.2.1, (h.2.2.1 (by decide)).trans (by decide)⟩

/-! ## Claim C5: discard relocates retained frames bit-identically -/

theorem copyBlocks_succ (src : Int) (m : Int → Int) (n : Nat) :
    copyBlocks src m (n + 1) = copyBlock src n (copyBlocks src m n) := by
  unfold copyBlocks
  rw [List.range_succ, List.foldl_append]
  rfl

/-- Bytes at or beyond the write frontier are untouched by the copy. -/
theorem copyBlocks_high (src : Int) (m : Int → Int) (n : Nat) (u : Int)
    (hu : 8 * (n : Int) ≤ u) : copyBlocks src m n u = m u := by
  induction n with
  | zero => rfl
  | succ k ih =>
    rw [copyBlocks_succ]
    unfold copyBlock
    rw [if_neg (by push_cast at hu ⊢; omega)]
    exact ih (by push_cast at hu ⊢; omega)

/-- The forward 64-bit copy with non-negative gap reads every source
byte before any store can overwrite it, so the result is the plain
relocation of the original bytes: after n blocks, destination byte u
holds the original byte src + u for every 0 <= u < 8n. -/
theorem copyBlocks_low (src : Int) (m : Int → Int) (n : Nat) (u : Int)
    (hsrc : 0 ≤ src) (h0 : 0 ≤ u) (hu : u < 8 * (n : Int)) :
    copyBlocks src m n u = m (src + u) := by
  induction n with
  | zero => exact absurd hu (by push_cast; omega)
  | succ k ih =>
    rw [copyBlocks_succ]
    unfold copyBlock
    by_cases hc : 8 * (k : Int) ≤ u ∧ u < 8 * (k : Int) + 8
    · rw [if_pos hc]
      exact copyBlocks_high src m k (src + u) (by omega)
    · rw [if_neg hc]
      exact ih (by push_cast at hu hc ⊢; omega)

theorem discard_go_mem (buf : SampleBuffer) (idx L b : Int)
    (_hinv : sbInvariant buf)
    (hidx0 : 0 < idx) (hidxw : idx < buf.widx)
    (hL1 : buf.wpos + idx ≤ L) (hL2 : L < buf.wpos + buf.widx)
    (hb0 : 0 ≤ b) (hb : b < 2 ^ buf.bps) :
    (samplebuffer_discard_go buf idx).mem
        (shl (L - (buf.wpos + idx)) buf.bps + b)
      = buf.mem (shl (L - buf.wpos) buf.bps + b) := by
  unfold samplebuffer_discard_go
  simp only
  have hkb : 0 < shl (buf.widx - idx) buf.bps :=
    mul_pos (by omega) (by positivity)
  rw [if_pos hkb]
  set K := shl (buf.widx - idx) buf.bps with hK
  set t := shl (L - (buf.wpos + idx)) buf.bps + b with ht
  have ht0 : 0 ≤ t := add_nonneg (shl_nonneg _ (by omega)) hb0
  have htK : t < K := by
    rw [ht, hK]
    unfold shl
    have h5 : L - (buf.wpos + idx) ≤ buf.widx - idx - 1 := by omega
    have h6 : (L - (buf.wpos + idx)) * 2 ^ buf.bps
        ≤ (buf.widx - idx - 1) * 2 ^ buf.bps :=
      mul_le_mul_of_nonneg_right h5 (by positivity)
    have h7 : (buf.widx - idx - 1) * 2 ^ buf.bps + 2 ^ buf.bps
        = (buf.widx - idx) * 2 ^ buf.bps := by ring
    omega
  have hdiv0 : 0 ≤ roundUp8 K / 8 := by unfold roundUp8; omega
  have h8 : 8 * ((roundUp8 K / 8).toNat : Int) = roundUp8 K ∧ K ≤ roundUp8 K := by
    rw [Int.toNat_of_nonneg hdiv0]
    unfold roundUp8
    omega
  rw [copyBlocks_low _ _ _ _ (shl_nonneg _ (by omega)) ht0 (by omega)]
  congr 1
  rw [ht]
  unfold shl
  ring

/-- C5 (confirmed): if samplebuffer_discard is called with
buffer wpos < wpos < buffer wpos + widx, every retained frame with
logical index L in [wpos, old wpos + old widx) holds, at its new
physical offset, a value bit-identical to its pre-discard value (for
every byte b of the frame). The forward 8-byte uncached copy, including
the round-up of the copied byte count to a multiple of 8, never corrupts
a retained byte. -/
theorem c5_discard_preserves_frames (buf : SampleBuffer) (wpos L b : Int)
    (hinv : sbInvariant buf)
    (h1 : buf.wpos < wpos) (h2 : wpos < buf.wpos + buf.widx)
    (hL1 : wpos ≤ L) (hL2 : L < buf.wpos + buf.widx)
    (hb0 : 0 ≤ b) (hb : b < 2 ^ buf.bps) :
    (samplebuffer_discard buf wpos).mem
        (shl (L - (samplebuffer_discard buf wpos).wpos) buf.bps + b)
      = buf.mem (shl (L - buf.wpos) buf.bps + b) := by
  unfold samplebuffer_discard
  simp only
  rw [if_neg (show ¬(wpos - buf.wpos ≤ 0) by omega)]
  have hclamp : (if wpos - buf.wpos > buf.widx then buf.widx
      else wpos - buf.wpos) = wpos - buf.wpos := if_neg (by omega)
  rw [hclamp]
  split
  · rename_i hodd
    split
    · rfl
    · rename_i hne
      exact discard_go_mem buf (wpos - buf.wpos - 1) L b hinv (by omega)
        (by omega) (by omega) hL2 hb0 hb
  · exact discard_go_mem buf (wpos - buf.wpos) L b hinv (by omega)
      (by omega) (by omega) hL2 hb0 hb

/-- Concrete buffer for the C5 witness: 16 bytes at 16 bit (8 frames),
byte u of the region holds the value u. -/
def c5buf : SampleBuffer :=
  { mem := fun u => u, size := 16, bps := 1, wpos := 0, widx := 8, ridx := 4,
    wnext := 8 }

/-- C5 witness: discarding up to logical frame 3 relocates frame 5
(byte 1 of it) bit-identically. -/
theorem c5_discard_preserves_frames_witness :
    sbInvariant c5buf ∧
    (samplebuffer_discard c5buf 3).mem
        (shl (5 - (samplebuffer_discard c5buf 3).wpos) c5buf.bps + 1)
      = c5buf.mem (shl (5 - c5buf.wpos) c5buf.bps + 1) :=
  ⟨by decide, c5_discard_preserves_frames c5buf 3 5 1 (by decide) (by decide)
    (by decide) (by decide) (by decide) (by decide) (by decide)⟩

/-!
## WAV64 container (src/audio/wav64.c)
-/

/-- The fields of the fixed 28-byte WAV64 header (wav64_header_t in
wav64_internal.h) used by the loader. -/
structure Wav64Header where
  version : Int
  format : Int
  channels : Int
  nbits : Int
  freq : Int
  len : Int
  loop_len : Int
  start_offset : Int
  state_size : Int
  deriving DecidableEq

/-- The waveform attribute record. waveform_t is declared in mixer.h,
which is not among the sources; the fields here are exactly the ones
assigned by internal_open and listed in the data model of the spec. -/
structure Waveform where
  channels : Int
  bits : Int
  frequency : Int
  len : Int
  loop_len : Int
  state_size : Int
  deriving DecidableEq

/-- The waveform-field assignment block of internal_open (wav64.c lines
174-183): every attribute is copied from the header verbatim - in
particular loop_len = head.loop_len with no rounding of any kind. -/
def internal_open_wave (head : Wav64Header) : Waveform :=
  { channels := head.channels
    bits := head.nbits
    frequency := head.freq
    len := head.len
    loop_len := head.loop_len
    state_size := head.state_size }

/-- wav64_set_loop (wav64.c lines 248-257): loop_len becomes len (or 0),
then an odd loop length of an 8-bit waveform is shortened by one. -/
def wav64_set_loop (w : Waveform) (loop : Bool) : Waveform :=
  let ll := if loop then w.len else 0
  let ll := if w.bits = 8 ∧ ll % 2 = 1 then ll - 1 else ll
  { w with loop_len := ll }

/-- Header of the C3 scenario: bits = 8, on-disk loop_length = 17. -/
def c3head : Wav64Header :=
  { version := 4
    format := 0
    channels := 1
    nbits := 8
    freq := 22050
    len := 32
    loop_len := 17
    start_offset := 28
    state_size := 0 }

/-- C3 counterexample: loading a WAV64 with bits = 8 and
loop_length = 17 yields an in-memory loop_length of 17, not 16 - the
loader copies the header field verbatim and never rounds it. -/
theorem c3_counterexample :
    (internal_open_wave c3head).loop_len = 17 ∧
    ¬ (internal_open_wave c3head).loop_len = 16 :=
  ⟨rfl, by decide⟩

/-- C3 (amended): the loader keeps the on-disk loop_length unchanged
(odd values included); the even-rounding of 8-bit loops exists only in
wav64_set_loop, which rebuilds loop_len from len and then rounds an odd
value down by one, so that after wav64_set_loop an 8-bit waveform always
has an even loop_len. -/
theorem c3_loader_loop_len (head : Wav64Header) (w : Waveform) (loop : Bool)
    (hw : w.bits = 8) :
    (internal_open_wave head).loop_len = head.loop_len ∧
    (wav64_set_loop w loop).loop_len % 2 = 0 := by
  refine ⟨rfl, ?_⟩
  unfold wav64_set_loop
  simp only
  cases loop with
  | false =>
    simp only [if_neg (by simp : ¬(false = true))]
    split <;> omega
  | true =>
    simp only [if_pos rfl]
    split <;> omega

/-- Concrete 8-bit waveform (odd length 33) for the C3 witness. -/
def c3wave : Waveform :=
  { channels := 1, bits := 8, frequency := 22050, len := 33, loop_len := 0,
    state_size := 0 }

/-- C3 witness: the amended theorem applied to c3head and to enabling
the loop on the odd-length 8-bit waveform c3wave. -/
theorem c3_loader_loop_len_witness :
    c3wave.bits = 8 ∧
    (internal_open_wave c3head).loop_len = c3head.loop_len ∧
    (wav64_set_loop c3wave true).loop_len % 2 = 0 :=
  ⟨rfl, (c3_loader_loop_len c3head c3wave true rfl).1,
    (c3_loader_loop_len c3head c3wave true rfl).2⟩

/-!
## Claim C10: double close (wav64_close, wav64.c lines 265-294)
-/

/-- The heap-allocated wav64 state block (wav64_state_t); st == NULL in
the Lean model is st = none in Wav64. -/
structure Wav64StateBlock where
  format : Int
  current_fd : Int
  flags : Int
  deriving DecidableEq

/-- In-memory wav64_t: embedded waveform attributes plus the heap state
pointer. waveId models the address identity of the embedded waveform_t,
which the mixer compares against; memset does not change an address, so
closing leaves it intact while zeroing the contents. -/
structure Wav64 where
  wave : Waveform
  waveId : Nat
  st : Option Wav64StateBlock
  deriving DecidableEq

/-- Observable side effects of wav64_close. -/
inductive CloseEvent where
  | stoppedVoice (ch : Nat)
  | codecClosed
  | closedFd (fd : Int)
  | freedHeap
  deriving DecidableEq

/-- WAV64_FLAG_OWNED_FD (bit 0 of the flags byte). -/
def wav64FlagOwnedFd (flags : Int) : Prop := flags % 2 = 1

instance (flags : Int) : Decidable (wav64FlagOwnedFd flags) := by
  unfold wav64FlagOwnedFd; infer_instance

/-- Whether the dispatch table entry (algos in wav64.c) for this format
has a close hook: raw PCM (0) has none, VADPCM (1) and Opus (3) do. -/
def algosHasClose (format : Int) : Bool := format == 1 || format == 3

/-- The all-zero waveform contents left behind by
memset(wav, 0, sizeof(wav64_t)). -/
def zeroWaveform : Waveform :=
  { channels := 0, bits := 0, frequency := 0, len := 0, loop_len := 0,
    state_size := 0 }

/-- wav64_close, modelled over a mixer state given as the list of
waveform ids playing on each channel. Returns the updated wav64_t, the
updated mixer state and the ordered list of observable side effects
(voice stops, codec close hook, descriptor close when owned, heap
free). A NULL heap pointer (st = none) returns immediately with no
effect, as the C code does for user-allocated instances that were
already closed. -/
def wav64_close (mixer : List (Option Nat)) (wav : Wav64) :
    Wav64 × List (Option Nat) × List CloseEvent :=
  match wav.st with
  | none => (wav, mixer, [])
  | some st =>
    let stops : List CloseEvent :=
      ((List.range mixer.length).filter
        (fun i => mixer.getD i none == some wav.waveId)).map
        CloseEvent.stoppedVoice
    let mixer1 := mixer.map (fun w => if w == some wav.waveId then none else w)
    let ev1 := if algosHasClose st.format then [CloseEvent.codecClosed] else []
    let ev2 := if st.current_fd ≥ 0 ∧ wav64FlagOwnedFd st.flags then
        [CloseEvent.closedFd st.current_fd] else []
    ({ wave := zeroWaveform, waveId := wav.waveId, st := none }, mixer1,
      stops ++ ev1 ++ ev2 ++ [CloseEvent.freedHeap])

/-- C10 (confirmed): closing an opened wav64_t zeroes the structure
(the heap pointer becomes NULL), and every subsequent close call, on
any mixer state, observes the NULL heap pointer and returns at once:
same structure, untouched mixer, no voice stops, no codec close, no
descriptor close, no free. -/
theorem c10_wav64_close_idempotent (mixer : List (Option Nat)) (wav : Wav64)
    (st0 : Wav64StateBlock) (hopen : wav.st = some st0) :
    (wav64_close mixer wav).1.st = none ∧
    (∀ m, wav64_close m (wav64_close mixer wav).1
      = ((wav64_close mixer wav).1, m, [])) := by
  unfold wav64_close
  rw [hopen]
  exact ⟨rfl, fun m => rfl⟩

/-- Concrete opened wav64 and mixer for the C10 witness: waveform id 7
playing on mixer channel 0, owned file descriptor 5, VADPCM format. -/
def c10wav : Wav64 :=
  { wave := { channels := 1, bits := 16, frequency := 32000, len := 64,
              loop_len := 0, state_size := 32 }
    waveId := 7
    st := some { format := 1, current_fd := 5, flags := 1 } }

/-- C10 witness: the theorem applied to c10wav on a concrete mixer. -/
theorem c10_wav64_close_idempotent_witness :
    (wav64_close [some 7, none] c10wav).1.st = none ∧
    wav64_close [some 3] (wav64_close [some 7, none] c10wav).1
      = ((wav64_close [some 7, none] c10wav).1, [some 3], []) :=
  ⟨(c10_wav64_close_idempotent [some 7, none] c10wav _ rfl).1,
   (c10_wav64_close_idempotent [some 7, none] c10wav _ rfl).2 [some 3]⟩

/-!
## VADPCM codec seeking (src/audio/wav64_vadpcm.c)
-/

/-- A skip point (wav64_vadpcm_skippoint_t): saved decoder state (two
vectors of 8 int16), bit position in the Huffman stream, and the sample
offset it corresponds to. -/
structure VadpcmSkipPoint where
  state : List Int × List Int
  bitpos : Int
  offset : Int
  deriving DecidableEq

/-- The VADPCM extended header fields used while seeking
(wav64_header_vadpcm_t): flags (bit 0 = Huffman) and the skip point
table. -/
structure VadpcmHead where
  flags : Int
  skip_points : List VadpcmSkipPoint
  deriving DecidableEq

/-- The effect of the seeking branch on the per-voice state and the
file position: the state written into vstate->state, the new bitpos,
and the lseek target if an lseek is issued. -/
structure VadpcmSeekEffect where
  state : List Int × List Int
  bitpos : Int
  fileOffset : Option Int
  deriving DecidableEq

/-- The cleared decoder state (rsp_vadpcm_copystate with src = NULL). -/
def vadpcmZeroState : List Int × List Int :=
  (List.replicate 8 0, List.replicate 8 0)

/-- The skip point scan of waveform_vadpcm_read: the first entry whose
offset equals wpos. -/
def findSkipPoint (sps : List VadpcmSkipPoint) (wpos : Int) :
    Option VadpcmSkipPoint :=
  sps.find? (fun sp => sp.offset == wpos)

/-- The seeking branch of waveform_vadpcm_read (wav64_vadpcm.c lines
212-237): wpos == 0 rewinds to the base offset with cleared state and
bitpos 0; otherwise a skip point with exactly this offset is required
(the assertion fires - none - when there is none, Huffman or not);
when one is found, state and bitpos are restored from it and, for
non-Huffman streams only, the file is positioned at
base_offset + wpos / 16 * 9. -/
def vadpcm_seek (vhead : VadpcmHead) (base_offset wpos : Int) :
    Option VadpcmSeekEffect :=
  if wpos = 0 then
    some { state := vadpcmZeroState, bitpos := 0,
           fileOffset := some base_offset }
  else
    match findSkipPoint vhead.skip_points wpos with
    | some sp =>
      some { state := sp.state
             bitpos := sp.bitpos
             fileOffset := if vhead.flags % 2 = 0 then
                 some (base_offset + wpos / 16 * 9)
               else none }
    | none => none

/-- The per-read file positioning of the non-seeking path
(wav64_vadpcm.c lines 239-244): non-Huffman streams are repositioned at
base_offset + (wpos / 16) * 9 on every read; there is no channel factor
in the expression. -/
def vadpcm_sequential_read_offset (vhead : VadpcmHead)
    (base_offset wpos : Int) : Option Int :=
  if vhead.flags % 2 = 0 then some (base_offset + wpos / 16 * 9) else none

/-- The C2 scenario header: non-Huffman, no skip points registered. -/
def c2head : VadpcmHead := { flags := 0, skip_points := [] }

/-- C2 counterexample: on a non-Huffman stream with no registered skip
point, the first-ever get(32, 16) reaches the read hook with
seeking = true and wpos = 32, and the code fails its skip point
assertion - it does not seek to base + 18 with zeroed state as the
claim says. -/
theorem c2_counterexample :
    vadpcm_seek c2head 100 32 = none ∧
    ¬ vadpcm_seek c2head 100 32
        = some { state := vadpcmZeroState, bitpos := 0,
                 fileOffset := some 118 } :=
  ⟨rfl, by decide⟩

/-- C2 (amended): a VADPCM seek to wpos = 0 rewinds to base_offset with
cleared state; a seek to any other wpos requires a registered skip
point with exactly that offset even on a non-Huffman stream, and when
one is found on a non-Huffman stream the file is seeked to compressed
offset base_offset + wpos / 16 * 9 - for wpos = 32 that is
base_offset + 18 - with no channel factor, restoring the state saved in
the skip point. -/
theorem c2_vadpcm_seek (vhead : VadpcmHead) (base wpos : Int)
    (sp : VadpcmSkipPoint) (hnh : vhead.flags % 2 = 0)
    (hfind : findSkipPoint vhead.skip_points wpos = some sp)
    (hnz : wpos ≠ 0) :
    vadpcm_seek vhead base wpos
      = some { state := sp.state, bitpos := sp.bitpos,
               fileOffset := some (base + wpos / 16 * 9) } ∧
    vadpcm_seek vhead base 0
      = some { state := vadpcmZeroState, bitpos := 0,
               fileOffset := some base } ∧
    vadpcm_sequential_read_offset vhead base wpos
      = some (base + wpos / 16 * 9) := by
  refine ⟨?_, rfl, ?_⟩
  · unfold vadpcm_seek
    rw [if_neg hnz, hfind]
    simp only [if_pos hnh]
  · unfold vadpcm_sequential_read_offset
    rw [if_pos hnh]

/-- The registered skip point at sample 32 used by the C2 witness. -/
def c2sp : VadpcmSkipPoint :=
  { state := vadpcmZeroState, bitpos := 0, offset := 32 }

/-- The C2 witness header: non-Huffman with the skip point at 32. -/
def c2vh : VadpcmHead := { flags := 0, skip_points := [c2sp] }

/-- C2 witness: with the skip point registered, seeking to 32 on a
stream based at offset 100 targets 100 + 18 = 118. -/
theorem c2_vadpcm_seek_witness :
    c2vh.flags % 2 = 0 ∧
    findSkipPoint c2vh.skip_points 32 = some c2sp ∧
    vadpcm_seek c2vh 100 32
      = some { state := c2sp.state, bitpos := c2sp.bitpos,
               fileOffset := some 118 } :=
  ⟨rfl, rfl, (c2_vadpcm_seek c2vh 100 32 c2sp rfl rfl (by decide)).1⟩

/-!
## XM64 player tick (src/audio/xm64.c, per-channel voice dispatch,
lines 73-101)
-/

/-- Per-voice mixer state driven by the tick loop. The C values are
floats and doubles; the tick body only copies them through, multiplies
two of them, or zeroes them, so exact rationals model the dataflow (no
rounding is involved in what the claim states). playing is the waveform
id on the voice (mixer_ch_playing_waveform), none = stopped. -/
structure MixerVoice where
  playing : Option Nat
  pos : Rat
  freq : Rat
  vol0 : Rat
  vol1 : Rat
  deriving DecidableEq

/-- The per-channel fields of xm_channel_context_t read by the tick
body: the current sample (none = NULL), its wav64 waveform id, the
mixer-facing values and the two mute flags. -/
structure XmChannel where
  sample : Option Nat
  sample_position : Rat
  frequency : Rat
  actual_volume0 : Rat
  actual_volume1 : Rat
  muted : Bool
  instrument_muted : Bool
  deriving DecidableEq

/-- The mixer calls issued by the tick body, in order. -/
inductive MixerCmd where
  | play (wave : Nat)
  | stop
  | setPos (p : Rat)
  | setFreq (f : Rat)
  | setVol (v0 v1 : Rat)
  deriving DecidableEq

/-- Body of the per-channel loop of tick (xm64.c lines 73-101): when the
channel has a sample and a non-negative sample position, start the
wav64 on the voice only if the voice is not already playing that
waveform, then set position, frequency and volume (both components
zeroed when the channel or its instrument is muted); otherwise stop the
voice. Returns the updated voice and the ordered mixer calls. -/
def xm64_tick_channel (gvol : Rat) (v : MixerVoice) (ch : XmChannel) :
    MixerVoice × List MixerCmd :=
  match ch.sample with
  | some w =>
    if ch.sample_position ≥ 0 then
      let muted := ch.muted || ch.instrument_muted
      let vc :=
        if v.playing ≠ some w then
          ({ v with playing := some w }, [MixerCmd.play w])
        else (v, [])
      let vol0 := if muted then 0 else gvol * ch.actual_volume0
      let vol1 := if muted then 0 else gvol * ch.actual_volume1
      ({ vc.1 with
          pos := ch.sample_position
          freq := ch.frequency
          vol0 := vol0
          vol1 := vol1 },
        vc.2 ++ [MixerCmd.setPos ch.sample_position,
                 MixerCmd.setFreq ch.frequency,
                 MixerCmd.setVol vol0 vol1])
    else ({ v with playing := none }, [MixerCmd.stop])
  | none => ({ v with playing := none }, [MixerCmd.stop])

/-- The full per-channel loop of tick: channel i drives voice
first_ch + i; voices and channels are paired positionally. -/
def xm64_tick_channels (gvol : Rat) (voices : List MixerVoice)
    (chans : List XmChannel) : List (MixerVoice × List MixerCmd) :=
  List.zipWith (xm64_tick_channel gvol) voices chans

/-- C9 (confirmed): on a tick, channel i drives voice i through
xm64_tick_channel; a channel with a NULL sample or a negative sample
position stops its voice (it sends nothing to the mixer); a channel
with a valid sample and non-negative position ends with its waveform on
the voice, issues a play call exactly when the voice was not already
playing that waveform, and updates position, frequency and volume, both
volume components being zero exactly when the channel or its instrument
is muted. -/
theorem c9_xm64_tick (gvol : Rat) (voices : List MixerVoice)
    (chans : List XmChannel) (i : Nat) (v : MixerVoice) (ch : XmChannel)
    (hv : voices.get? i = some v) (hch : chans.get? i = some ch) :
    (xm64_tick_channels gvol voices chans).get? i
      = some (xm64_tick_channel gvol v ch) ∧
    ((ch.sample = none ∨ ch.sample_position < 0) →
      (xm64_tick_channel gvol v ch).1.playing = none ∧
      (xm64_tick_channel gvol v ch).2 = [MixerCmd.stop]) ∧
    (∀ w, ch.sample = some w → 0 ≤ ch.sample_position →
      (xm64_tick_channel gvol v ch).1.playing = some w ∧
      (MixerCmd.play w ∈ (xm64_tick_channel gvol v ch).2
        ↔ v.playing ≠ some w) ∧
      (xm64_tick_channel gvol v ch).1.pos = ch.sample_position ∧
      (xm64_tick_channel gvol v ch).1.freq = ch.frequency ∧
      ((ch.muted || ch.instrument_muted) = true →
        (xm64_tick_channel gvol v ch).1.vol0 = 0 ∧
        (xm64_tick_channel gvol v ch).1.vol1 = 0) ∧
      ((ch.muted || ch.instrument_muted) = false →
        (xm64_tick_channel gvol v ch).1.vol0 = gvol * ch.actual_volume0 ∧
        (xm64_tick_channel gvol v ch).1.vol1 = gvol * ch.actual_volume1)) := by
  refine ⟨?_, ?_, ?_⟩
  · unfold xm64_tick_channels
    rw [List.get?_zipWith', hv, hch]
    rfl
  · intro hstop
    unfold xm64_tick_channel
    rcases hs : ch.sample with _ | w
    · exact ⟨rfl, rfl⟩
    · rcases hstop with hnone | hneg
      · rw [hs] at hnone; cases hnone
      · simp only
        rw [if_neg (not_le.mpr hneg)]
        exact ⟨rfl, rfl⟩
  · intro w hs hpos
    unfold xm64_tick_channel
    rw [hs]
    simp only
    rw [if_pos (by exact_mod_cast hpos)]
    by_cases hp : v.playing ≠ some w
    · rw [if_pos hp]
      refine ⟨rfl, iff_of_true (by simp) hp, rfl, rfl, ?_, ?_⟩
      · intro hm
        rw [hm]
        exact ⟨rfl, rfl⟩
      · intro hm
        rw [hm]
        exact ⟨rfl, rfl⟩
    · rw [if_neg hp]
      rw [not_not] at hp
      refine ⟨by simp only; rw [hp], iff_of_false (by simp)
        (not_not_intro hp), rfl, rfl, ?_, ?_⟩
      · intro hm
        rw [hm]
        exact ⟨rfl, rfl⟩
      · intro hm
        rw [hm]
        exact ⟨rfl, rfl⟩

/-- Concrete channel and voice for the C9 witness: instrument not yet
playing on the voice, channel muted. -/
def c9ch : XmChannel :=
  { sample := some 4
    sample_position := 10
    frequency := 8363
    actual_volume0 := 1/2
    actual_volume1 := 1/4
    muted := true
    instrument_muted := false }

/-- Idle voice used by the C9 witness. -/
def c9voice : MixerVoice :=
  { playing := none, pos := 0, freq := 0, vol0 := 0, vol1 := 0 }

/-- Silent channel (NULL sample) used by the C9 witness. -/
def c9chNull : XmChannel :=
  { sample := none
    sample_position := 0
    frequency := 0
    actual_volume0 := 0
    actual_volume1 := 0
    muted := false
    instrument_muted := false }

/-- C9 witness: the theorem applied to a two-channel tick - channel 0
(valid, muted) starts waveform 4 with zero volume, channel 1 (NULL
sample) stops its voice. -/
theorem c9_xm64_tick_witness :
    (xm64_tick_channels 1 [c9voice, c9voice] [c9ch, c9chNull]).get? 0
      = some (xm64_tick_channel 1 c9voice c9ch) ∧
    (xm64_tick_channel 1 c9voice c9ch).1.playing = some 4 ∧
    (xm64_tick_channel 1 c9voice c9ch).1.vol0 = 0 ∧
    (xm64_tick_channel 1 c9voice c9chNull).1.playing = none ∧
    (xm64_tick_channel 1 c9voice c9chNull).2 = [MixerCmd.stop] := by
  have h0 := c9_xm64_tick 1 [c9voice, c9voice] [c9ch, c9chNull] 0 c9voice c9ch
    rfl rfl
  have h1 := c9_xm64_tick 1 [c9voice, c9voice] [c9ch, c9chNull] 1 c9voice
    c9chNull rfl rfl
  have hval := h0.2.2 4 rfl (by decide)
  have hnull := h1.2.1 (Or.inl rfl)
  exact ⟨h0.1, hval.1, (hval.2.2.2.2.1 rfl).1, hnull.1, hnull.2⟩

/-!
## Bit I/O placeholder scheme (tools/common/binout.c)
-/

/-- A binary output file: byte contents (0 where never written) plus
the stream position (ftell). Big-endian writers write at pos and
advance it; the w*_at patchers seek, write, and seek back. Byte values
are kept as Int in [0, 256), the two's complement conversion of the C
argument being the entry mask v % 2^w. -/
structure BFile where
  bytes : Nat → Int
  pos : Nat

/-- _w8: fputc of the low byte. -/
def w8 (f : BFile) (v : Int) : BFile :=
  { bytes := fun i => if i = f.pos then v % 256 else f.bytes i
    pos := f.pos + 1 }

/-- _w16: big-endian, high byte first (the uint16_t parameter masks the
argument to 16 bits). -/
def w16 (f : BFile) (v : Int) : BFile :=
  let v := v % 2 ^ 16
  w8 (w8 f (v / 2 ^ 8)) (v % 2 ^ 8)

/-- _w32: big-endian, high half first. -/
def w32 (f : BFile) (v : Int) : BFile :=
  let v := v % 2 ^ 32
  w16 (w16 f (v / 2 ^ 16)) (v % 2 ^ 16)

/-- _w64: big-endian, high half first. -/
def w64 (f : BFile) (v : Int) : BFile :=
  let v := v % 2 ^ 64
  w32 (w32 f (v / 2 ^ 32)) (v % 2 ^ 32)

/-- _w8_at: remember the position, seek, write, seek back. -/
def w8_at (f : BFile) (p : Nat) (v : Int) : BFile :=
  { w8 { f with pos := p } v with pos := f.pos }

/-- _w16_at. -/
def w16_at (f : BFile) (p : Nat) (v : Int) : BFile :=
  { w16 { f with pos := p } v with pos := f.pos }

/-- _w32_at. -/
def w32_at (f : BFile) (p : Nat) (v : Int) : BFile :=
  { w32 { f with pos := p } v with pos := f.pos }

/-- _w64_at. -/
def w64_at (f : BFile) (p : Nat) (v : Int) : BFile :=
  { w64 { f with pos := p } v with pos := f.pos }

/-- Per-name placeholder bookkeeping (struct placeholder_data): the
resolved offset (-1 = not yet set) and the four pending-position lists,
one per width. -/
structure PlaceholderData where
  offset : Int
  pending64 : List Nat
  pending32 : List Nat
  pending16 : List Nat
  pending8 : List Nat
  deriving DecidableEq

/-- The default entry created by __placeholder_get_data on first use. -/
def placeholderDefault : PlaceholderData :=
  { offset := -1, pending64 := [], pending32 := [], pending16 := [],
    pending8 := [] }

/-- The string-keyed hash (placeholder_hash), as a total map with the
default entry for unseen names. -/
def PlaceholderHash : Type := String → PlaceholderData

/-- __w64_placeholder_named: when the offset is still unknown, record
the current position in the 64-bit pending list and write a 64-bit
zero; otherwise write the offset directly as a 64-bit value. -/
def w64_placeholder_named (st : PlaceholderHash) (f : BFile) (name : String) :
    BFile × PlaceholderHash :=
  let d := st name
  if d.offset = -1 then
    (w64 f 0,
     fun n => if n = name then { d with pending64 := d.pending64 ++ [f.pos] }
              else st n)
  else (w64 f d.offset, st)

/-- __w32_placeholder_named. -/
def w32_placeholder_named (st : PlaceholderHash) (f : BFile) (name : String) :
    BFile × PlaceholderHash :=
  let d := st name
  if d.offset = -1 then
    (w32 f 0,
     fun n => if n = name then { d with pending32 := d.pending32 ++ [f.pos] }
              else st n)
  else (w32 f d.offset, st)

/-- __placeholder_make (binout.c lines 118-138): record the offset for
the name, then back-patch every pending position and clear the lists.
Line 123 of the source patches the 64-BIT pending list with w32_at, so
an 8-byte placeholder field receives the offset as a 32-bit big-endian
value in its FIRST four bytes while its last four bytes keep the zeros
written when the placeholder was emitted. -/
def placeholder_make (st : PlaceholderHash) (f : BFile) (offset : Int)
    (name : String) : BFile × PlaceholderHash :=
  let d := st name
  let f := d.pending64.foldl (fun f p => w32_at f p offset) f
  let f := d.pending32.foldl (fun f p => w32_at f p offset) f
  let f := d.pending16.foldl (fun f p => w16_at f p offset) f
  let f := d.pending8.foldl (fun f p => w8_at f p offset) f
  (f, fun n => if n = name then
      { offset := offset, pending64 := [], pending32 := [], pending16 := [],
        pending8 := [] }
    else st n)

/-- Empty output file for the C8 scenario. -/
def c8empty : BFile := { bytes := fun _ => 0, pos := 0 }

/-- Fresh placeholder hash for the C8 scenario. -/
def c8hash0 : PlaceholderHash := fun _ => placeholderDefault

/-- Step 1 of the C8 scenario: a 64-bit placeholder named x emitted at
file position 0 (8 zero bytes, position recorded). -/
def c8step1 : BFile × PlaceholderHash := w64_placeholder_named c8hash0 c8empty "x"

/-- Step 2: set x to offset 4660 (0x1234), back-patching the pending
placeholder. -/
def c8step2 : BFile × PlaceholderHash := placeholder_make c8step1.2 c8step1.1 4660 "x"

/-- What a correct full-width 64-bit patch of offset 4660 at position 0
would put in bytes 0..7. -/
def c8correct : BFile := w64 c8empty 4660

/-- C8 (code bug): after emitting a 64-bit placeholder for x at
position 0 and calling set(x) with offset 0x1234, the field holds
00 00 12 34 00 00 00 00 - the 32-bit big-endian patch of line 123 -
instead of the correct 64-bit big-endian encoding
00 00 00 00 00 00 12 34 that w64 produces; a 64-bit placeholder
emitted for the same name AFTER the set is written correctly (bytes
8..15 are the w64 encoding, ending in 0x12 0x34). -/
theorem c8_placeholder64_patch_bug :
    (List.range 8).map c8step2.1.bytes = [0, 0, 18, 52, 0, 0, 0, 0] ∧
    (List.range 8).map c8correct.bytes = [0, 0, 0, 0, 0, 0, 18, 52] ∧
    ((List.range 8).map c8step2.1.bytes ≠ (List.range 8).map c8correct.bytes) ∧
    (List.range 8).map
        (fun i => (w64_placeholder_named c8step2.2 c8step2.1 "x").1.bytes (8 + i))
      = [0, 0, 0, 0, 0, 0, 18, 52] := by
  refine ⟨rfl, rfl, by decide, rfl⟩

/-!
## VADPCM Huffman lookup tables (wav64_vadpcm_init_huffman in
src/audio/wav64_vadpcm.c lines 346-374, and the structurally identical
huffv_decompress_init in tools/audioconv64/huff_vadpcm.c lines 263-306)
-/

/-- Huffman decode context as stored in the VADPCM extended header
(wav64_vadpcm_huffctx_t / HuffSerializedCtx): 8 bytes of packed 4-bit
code lengths (high nibble = even symbol, 0xF = unused) followed by 16
code value bytes. -/
structure HuffCtx where
  lengths : List Int
  values : List Int
  deriving DecidableEq

/-- Stored code length of symbol j:
lengths[j/2] >> (4*(~j&1)) & 0xF. -/
def huffLen (ctx : HuffCtx) (j : Nat) : Int :=
  ctx.lengths.getD (j / 2) 0 / 2 ^ (4 * (1 - j % 2)) % 16

/-- The inner fill loop for one symbol: write value into the cnt
consecutive entries starting at code, asserting that each entry still
holds the zero sentinel (the per-write assert of the C loop; the
entries of one symbol are pairwise distinct, so checking them up front
equals checking before each write). -/
def huffFillSym (tbl : List Int) (code cnt : Nat) (value : Int) :
    Option (List Int) :=
  if (List.range cnt).all (fun k => tbl.getD (code + k) 0 == 0) then
    some ((List.range 256).map (fun i =>
      if code ≤ i ∧ i < code + cnt then value else tbl.getD i 0))
  else none

/-- The per-symbol loop of the table build: skip unused symbols
(length 0xF), assert len <= 8 and that the code value fits in len bits,
then fill the 1 << (8 - len) entries whose 8-bit prefix is the
MSB-aligned code with (symbol << 4) | len. -/
def huffBuildSyms (ctx : HuffCtx) : Option (List Int) :=
  (List.range 16).foldlM (fun tbl j =>
    let len := huffLen ctx j
    if len = 15 then some tbl
    else if ¬(len ≤ 8) then none
    else if ¬(ctx.values.getD j 0 / 2 ^ len.toNat = 0) then none
    else
      let shift := 8 - len.toNat
      let code := (ctx.values.getD j 0 * 2 ^ shift).toNat
      huffFillSym tbl code (2 ^ shift) ((j : Int) * 16 + len))
    (List.replicate 256 0)

/-- One context of wav64_vadpcm_init_huffman / huffv_decompress_init:
build the 256-entry table from the zero-initialised array, then run the
final self-check assert(codes[j] != 0) over all 256 entries. -/
def wav64_vadpcm_init_huffman_ctx (ctx : HuffCtx) : Option (List Int) :=
  match huffBuildSyms ctx with
  | none => none
  | some tbl =>
    if (List.range 256).all (fun j => tbl.getD j 0 != 0) then some tbl
    else none

/-- Whether used symbol j covers the 8-bit lookahead t (t has the
symbol's MSB-aligned code as prefix). -/
def huffCovers (ctx : HuffCtx) (j t : Nat) : Bool :=
  huffLen ctx j != 15 &&
  ((ctx.values.getD j 0).toNat * 2 ^ (8 - (huffLen ctx j).toNat) ≤ t &&
   t < ((ctx.values.getD j 0).toNat + 1) * 2 ^ (8 - (huffLen ctx j).toNat))

/-- Modelled from the spec (section 4.E and testable property "VADPCM
Huffman"): the stored per-symbol lengths and MSB-aligned values form a
valid prefix code - every used symbol has a length in [0,8] (0xF means
unused; 0 is legal for a single-symbol context) and a value that fits
its length, and every 8-bit lookahead is covered by exactly one used
symbol (completeness and prefix-freedom of the code). -/
def huffCtxValidPrefix (ctx : HuffCtx) : Prop :=
  ctx.lengths.length = 8 ∧ ctx.values.length = 16 ∧
  (∀ j, j < 16 → huffLen ctx j ≠ 15 →
    huffLen ctx j ≤ 8 ∧ 0 ≤ ctx.values.getD j 0 ∧
    ctx.values.getD j 0 < 2 ^ (huffLen ctx j).toNat) ∧
  (∀ t, t < 256 → ((List.range 16).filter (fun j => huffCovers ctx j t)).length = 1)

instance (ctx : HuffCtx) : Decidable (huffCtxValidPrefix ctx) := by
  unfold huffCtxValidPrefix; infer_instance

/-- The degenerate single-symbol context of the C7 scenario: symbol 0
has code length 0 (and code value 0), all other symbols are unused.
This is exactly what huffv_compress serializes for a context whose data
contains only the nibble 0, and its own comment calls the zero length
valid. -/
def c7ctx : HuffCtx :=
  { lengths := 15 :: List.replicate 7 255, values := List.replicate 16 0 }

set_option maxRecDepth 4096 in
/-- C7 (code bug): c7ctx is a valid prefix code (single symbol 0,
length 0), the fill loop populates all 256 entries - each with
(0 << 4) | 0 = 0, whose low-nibble length field equals the stored
length 0 - and yet the final self-check assert(codes[j] != 0) fails
because the correct entry value 0 collides with the zero sentinel used
to mean "unwritten": the function aborts on a legal context instead of
returning the correctly built table. -/
theorem c7_init_huffman_sentinel_bug :
    huffCtxValidPrefix c7ctx ∧
    huffBuildSyms c7ctx = some (List.replicate 256 0) ∧
    (List.replicate 256 (0 : Int)).all
      (fun v => v % 16 == huffLen c7ctx 0) = true ∧
    wav64_vadpcm_init_huffman_ctx c7ctx = none := by
  refine ⟨by decide, by decide, by decide, by decide⟩

/-!
## VADPCM Huffman encoder and table decoder
(tools/audioconv64/huff_vadpcm.c)
-/

/-- Huffman tree node (HuffNode): a leaf carries a symbol, an internal
node its two children; both carry a frequency. -/
inductive HuffTree where
  | leaf (symbol : Nat) (freq : Nat)
  | node (freq : Nat) (l r : HuffTree)
  deriving DecidableEq

/-- The frequency of a node (the field read by compare_freq). -/
def HuffTree.frequency : HuffTree → Nat
  | .leaf _ f => f
  | .node f _ _ => f

/-- Insert a node into a frequency-sorted list, before the first
strictly larger element. -/
def insertByFreq (t : HuffTree) : List HuffTree → List HuffTree
  | [] => [t]
  | a :: rest =>
    if t.frequency < a.frequency then t :: a :: rest
    else a :: insertByFreq t rest

/-- qsort with compare_freq, modelled as a stable insertion sort: the C
qsort leaves the order of equal frequencies unspecified, so any fixed
tie order is a legal refinement (the concrete evaluations below involve
at most one node per heap, where the order is immaterial). -/
def sortByFreq (l : List HuffTree) : List HuffTree :=
  l.foldr insertByFreq []

/-- The combine loop of build_huffman_tree: take the two smallest
nodes, make them children of a fresh parent carrying the summed
frequency, put the parent at the end of the heap and re-sort. Each
round shrinks the heap by one node, so a fuel equal to the initial heap
size bounds the while loop exactly. -/
def buildLoop : Nat → List HuffTree → Option HuffTree
  | _, [] => none
  | _, [t] => some t
  | 0, _ => none
  | fuel + 1, a :: b :: rest =>
    buildLoop fuel
      (sortByFreq (rest ++ [HuffTree.node (a.frequency + b.frequency) a b]))

/-- build_huffman_tree: one leaf per nonzero frequency (in symbol
order), sorted by frequency, then combined bottom-up. The C code reads
heap[0] even when no symbol has a nonzero frequency; none models that
(the callers never pass an all-zero table for a context that occurs in
the data). -/
def build_huffman_tree (freqs : List Nat) : Option HuffTree :=
  let heap := (List.range freqs.length).filterMap (fun i =>
    if freqs.getD i 0 = 0 then none
    else some (HuffTree.leaf i (freqs.getD i 0)))
  buildLoop heap.length (sortByFreq heap)

/-- generate_huffman_codes: walk the tree, extending the code with a 0
bit to the left and a 1 bit to the right; leaves record (symbol, code,
length). -/
def genCodes : HuffTree → Int → Int → List (Nat × Int × Int)
  | .leaf s _, code, len => [(s, code, len)]
  | .node _ l r, code, len =>
    genCodes l (code * 2) (len + 1) ++ genCodes r (code * 2 + 1) (len + 1)

/-- The (value, length) pair of symbol j after generate_huffman_codes;
unused symbols keep value 0 and the initialiser length -1. -/
def codesFor (t : HuffTree) (j : Nat) : Int × Int :=
  match (genCodes t 0 0).find? (fun e => e.1 == j) with
  | some e => (e.2.1, e.2.2)
  | none => (0, -1)

/-- The nibble stream of the input: the high nibble of each byte,
then its low nibble. -/
def nibbleSyms (input : List Nat) : List Nat :=
  input.foldr (fun b acc => b / 16 :: b % 16 :: acc) []

/-- Each nibble tagged with its context: per 9-byte block (18 nibbles),
nibble 0 uses context 0, nibble 1 context 1, nibbles 2..17 context 2;
equivalently nibble n of the stream uses context min (n mod 18) 2. -/
def nibbleCtxStream (input : List Nat) : List (Nat × Nat) :=
  (nibbleSyms input).enum.map (fun e =>
    (if e.1 % 18 < 2 then e.1 % 18 else 2, e.2))

/-- The raw per-context frequency table of calculate_frequencies:
freq[c][s] counts the nibbles with context c and symbol s. -/
def rawFreqs (input : List Nat) (c : Nat) : List Nat :=
  (List.range 16).map (fun s =>
    ((nibbleCtxStream input).filter (fun e => e == (c, s))).length)

/-- The normalisation pass of calculate_frequencies: scale the
frequencies so that each is at most 255, rounding up (a context with no
symbols is left untouched). The assert nfreq == 0 -> freq == 0 can
never fire: for sum > 0 and freq >= 1, freq*255 + sum - 1 >= sum. -/
def normalizeFreqs (fr : List Nat) : List Nat :=
  let sum := fr.foldl (· + ·) 0
  if sum = 0 then fr
  else fr.map (fun f => (f * 255 + sum - 1) / sum)

/-- calculate_frequencies: raw tally then normalisation, per context. -/
def calculate_frequencies (input : List Nat) : List (List Nat) :=
  (List.range 3).map (fun c => normalizeFreqs (rawFreqs input c))

/-- The retry loop of huffv_compress for one context: build the tree,
generate the codes, and accept them if every code is at most 8 bits;
otherwise halve every frequency above 1 and retry (what bzip2 does, per
the source comment). The C loop is while(1); the fuel bounds it - after
at most 8 halvings every frequency is 0 or 1 (they start at most 255)
and sixteen equal-weight leaves yield depth 4, so a fuel of 32 is far
beyond what any input can need. -/
def huffvBuildCtx (fuel : Nat) (freqs : List Nat) :
    Option (List (Int × Int)) :=
  match fuel with
  | 0 => none
  | fuel + 1 =>
    match build_huffman_tree freqs with
    | none => none
    | some t =>
      let codes := (List.range 16).map (codesFor t)
      if codes.all (fun c => c.2 ≤ 8) then some codes
      else huffvBuildCtx fuel (freqs.map (fun f => if f > 1 then f / 2 else f))

/-- Serialize one context (24 bytes): 8 bytes of 4-bit lengths packed
two per byte (high nibble = even symbol; negative lengths - unused
symbols - are written as 0xF, a zero length being valid for a
single-symbol context, per the source comment), then the 16 value
bytes. -/
def serializeCtx (codes : List (Int × Int)) : List Int :=
  ((List.range 8).map (fun b =>
    let l0 := (codes.getD (2 * b) (0, -1)).2
    let l1 := (codes.getD (2 * b + 1) (0, -1)).2
    (if l0 < 0 then 15 else l0) * 16 + (if l1 < 0 then 15 else l1)))
  ++ codes.map (fun c => c.1)

/-- The MSB-first bits of the low len bits of value. -/
def codeBits (value : Int) (len : Nat) : List Bool :=
  (List.range len).map (fun k => value / 2 ^ (len - 1 - k) % 2 == 1)

/-- The bit-serialisation loop of huffv_compress: each nibble is
appended MSB-first through its context's code (the 32-bit accumulator
of the C code never holds more than 24 bits, so collecting the whole
bit string is exact); a symbol without a code (length < 0) fails the
encode assertion. -/
def encodeBits (ctxCodes : List (List (Int × Int))) (input : List Nat) :
    Option (List Bool) :=
  (nibbleCtxStream input).foldlM (fun bits e =>
    let c := (ctxCodes.getD e.1 []).getD e.2 (0, -1)
    if c.2 < 0 then none
    else some (bits ++ codeBits c.1 c.2.toNat)) []

/-- Pack a bit string into bytes, MSB first, padding the final partial
byte with zero bits (output[written++] = buffer << (8 - bit_pos)). -/
def bitsToBytes (bits : List Bool) : List Nat :=
  (List.range ((bits.length + 7) / 8)).map (fun i =>
    (List.range 8).foldl (fun acc k =>
      acc * 2 + (if bits.getD (8 * i + k) false then 1 else 0)) 0)

/-- huffv_compress: assert a positive multiple-of-9 length, compute the
normalised per-context frequencies, build the 8-bit-limited Huffman
codes for the three contexts, and return the 72 serialized context
bytes together with the encoded bit stream packed into bytes. -/
def huffv_compress (fuel : Nat) (input : List Nat) :
    Option (List Int × List Nat) :=
  if input.length = 0 ∨ ¬(input.length % 9 = 0) then none
  else
    let freqs := calculate_frequencies input
    match (List.range 3).mapM (fun c => huffvBuildCtx fuel (freqs.getD c [])) with
    | none => none
    | some ctxCodes =>
      match encodeBits ctxCodes input with
      | none => none
      | some bits =>
        some ((ctxCodes.map serializeCtx).flatten, bitsToBytes bits)

/-- huffv_decompress_init: split the 72 context bytes into three
serialized contexts and build the three 256-entry lookup tables, with
the same fill loop and the same zero-sentinel self-checks as
wav64_vadpcm_init_huffman (the two functions are line-for-line the same
algorithm). -/
def huffv_decompress_init (ctx_data : List Int) : Option (List (List Int)) :=
  if ctx_data.length ≠ 72 then none
  else
    (List.range 3).mapM (fun i =>
      wav64_vadpcm_init_huffman_ctx
        { lengths := ((ctx_data.drop (i * 24)).take 8)
          values := (((ctx_data.drop (i * 24)).drop 8).take 16) })

/-- The bit-stream reading state of huffv_decompress: the 32-bit
accumulator, the number of valid bits in it, and the input index. -/
structure BitReader where
  buffer : Nat
  bits : Nat
  idx : Nat
  deriving DecidableEq

/-- The refill loop: while fewer than 8 bits are buffered, shift in the
next input byte (or a zero byte past the end of the input, as the C
shift does). Since bits only ever decreases by at most 8 below 8, a
single conditional refill reproduces the while loop exactly. -/
def brRefill (comp : List Nat) (br : BitReader) : BitReader :=
  if br.bits < 8 then
    { buffer := (br.buffer * 256 + comp.getD br.idx 0) % 2 ^ 32
      bits := br.bits + 8
      idx := br.idx + 1 }
  else br

/-- Decode one nibble: refill, peek the top 8 buffered bits, look the
prefix up in the context table (high nibble = symbol, low nibble = code
length), and consume length bits. -/
def decodeNibble (comp : List Nat) (tbl : List Int) (br : BitReader) :
    Nat × BitReader :=
  let br := brRefill comp br
  let index := br.buffer / 2 ^ (br.bits - 8) % 256
  let code := (tbl.getD index 0).toNat
  ((code / 16), { br with bits := br.bits - code % 16 })

/-- Decode one 9-byte block: 18 nibbles (contexts 0, 1, then 2 for the
rest), combined two nibbles per byte, high nibble first. -/
def decodeBlock (comp : List Nat) (lookup : List (List Int))
    (br : BitReader) : List Nat × BitReader :=
  let step := fun (acc : List Nat × BitReader) (n : Nat) =>
    let ctxi := if n < 2 then n else 2
    let r := decodeNibble comp (lookup.getD ctxi []) acc.2
    (acc.1 ++ [r.1], r.2)
  let nibbles := (List.range 18).foldl step ([], br)
  ((List.range 9).map (fun i =>
      nibbles.1.getD (2 * i) 0 * 16 + nibbles.1.getD (2 * i + 1) 0 % 16),
   nibbles.2)

/-- huffv_decompress: decode num_blocks 9-byte blocks from the
compressed byte stream with the three lookup tables. -/
def huffv_decompress (comp : List Nat) (lookup : List (List Int))
    (num_blocks : Nat) : List Nat :=
  ((List.range num_blocks).foldl (fun acc _ =>
    let r := decodeBlock comp lookup acc.2
    (acc.1 ++ r.1, r.2)) ([], { buffer := 0, bits := 0, idx := 0 })).1

/-- The failing input of C6: one all-zero 9-byte VADPCM frame. -/
def c6input : List Nat := List.replicate 9 0

/-- The context bytes huffv_compress serializes for c6input: in each of
the three contexts only symbol 0 occurs, so it gets the zero-length
empty code (byte 0 = 0x0F: length 0 for symbol 0, 0xF unused for
symbol 1), all other symbols are unused (0xFF bytes) and all code
values are 0. -/
def c6ctx1 : List Int := 15 :: (List.replicate 7 255 ++ List.replicate 16 0)

/-- The all-zero 256-entry table that the fill loop of
huffv_decompress_init builds for such a context (entry value
(0 << 4) | 0 = 0 everywhere). -/
def c6zeroTbl : List Int := List.replicate 256 0

set_option maxRecDepth 8192 in
/-- C6 (code bug): compressing the all-zero 9-byte frame succeeds and
produces 72 context bytes (three single-symbol contexts with
zero-length codes, as the encoder's own comment allows) and an empty
bit stream - but huffv_decompress_init rejects those contexts: its
final self-check assert(codes[j] != 0) fires because the correct table
entry 0 for symbol 0 with length 0 collides with the zero sentinel, so
the decoder aborts and the round trip fails. With the very table the
fill loop had built (all entries 0), the table decoder would have
reproduced the 9 input bytes exactly. -/
theorem c6_huffman_roundtrip_broken :
    huffv_compress 32 c6input = some (c6ctx1 ++ c6ctx1 ++ c6ctx1, []) ∧
    huffv_decompress_init (c6ctx1 ++ c6ctx1 ++ c6ctx1) = none ∧
    huffv_decompress [] [c6zeroTbl, c6zeroTbl, c6zeroTbl] 1 = c6input := by
  refine ⟨by decide, by decide, by decide⟩
